import Mathlib

/-!
Verification of the SPINE repository's modeling and analytics scripts.

The RDF-processing scripts (`remove_geometry.py`, `select_bot_spaces.py`,
`link_ttl.py`) are embedded over a list-of-triples graph model; the XML
scripts (`gml_fixing.py`, `terrain_gml_fixing.py`) over lists of attribute
values resp. lists of tagged child nodes; the Flink filter stage of
`cep_job.py` over an `Except`-monadic model of Python attribute access.
-/

namespace SPINE

/-- An RDF term: URI reference, literal, or blank node (rdflib's three
node kinds). -/
inductive Term : Type where
  | uri : String → Term
  | lit : String → Term
  | bnode : String → Term
  deriving DecidableEq, Repr

/-- Python `str(term)` in rdflib: the URI text, the literal's lexical form, or the
blank-node label. -/
def termStr : Term → String
  | Term.uri u => u
  | Term.lit v => v
  | Term.bnode b => b

/-- Python `isinstance(o, Literal)`. -/
def isLit : Term → Bool
  | Term.lit _ => true
  | _ => false

/-- An RDF triple (subject, predicate, object). -/
structure Triple : Type where
  s : Term
  p : Term
  o : Term
  deriving DecidableEq, Repr

/-- A graph is a list of triples (rdflib stores a set; list order stands
for iteration order). -/
abbrev RDFGraph := List Triple

/-- The `rdf:type` predicate. -/
def rdfType : Term := Term.uri "http://www.w3.org/1999/02/22-rdf-syntax-ns#type"

/-- First-occurrence deduplication, the set-like iteration of rdflib
generators over distinct values. -/
def firstDedup {α : Type} [DecidableEq α] : List α → List α :=
  go []
where
  go (seen : List α) : List α → List α
    | [] => []
    | x :: xs => if x ∈ seen then go seen xs else x :: go (x :: seen) xs

/-- rdflib `g.subjects(p, o)`: subjects of all triples with the given predicate
and object, each distinct subject once. -/
def subjectsOf (g : RDFGraph) (p o : Term) : List Term :=
  firstDedup ((g.filter (fun t => t.p = p && t.o = o)).map Triple.s)

/-! ## remove_geometry.py -/

/-- The three IFC schema dialects keyed in `ifc_namespaces` and
`geom_classes`. -/
inductive IfcVersion : Type where
  | ifc2x3 | ifc4 | ifc4_3
  deriving DecidableEq, Repr

/-- Table `ifc_namespaces` of `remove_geometry.py`. -/
def ifcNamespaceUri : IfcVersion → String
  | IfcVersion.ifc2x3 => "https://standards.buildingsmart.org/IFC/DEV/IFC2x3/TC1/OWL#"
  | IfcVersion.ifc4 => "https://standards.buildingsmart.org/IFC/DEV/IFC4/ADD2/OWL#"
  | IfcVersion.ifc4_3 => "https://standards.buildingsmart.org/IFC/DEV/IFC4_3/RC1/OWL#"

/-- List `geom_classes_ifc2x3` of `remove_geometry.py`, verbatim. -/
def geom_classes_ifc2x3 : List String := [
  "Ifc2DCompositeCurve",
  "IfcAxis1Placement",
  "IfcAxis2Placement2D",
  "IfcAxis2Placement3D",
  "IfcBSplineCurve",
  "IfcBezierCurve",
  "IfcBoundedCurve",
  "IfcBoundedSurface",
  "IfcCartesianPoint",
  "IfcCartesianTransformationOperator",
  "IfcCartesianTransformationOperator2D",
  "IfcCartesianTransformationOperator2DnonUniform",
  "IfcCartesianTransformationOperator3D",
  "IfcCartesianTransformationOperator3DnonUniform",
  "IfcCircle",
  "IfcCompositeCurve",
  "IfcCompositeCurveSegment",
  "IfcConic",
  "IfcCurve",
  "IfcCurveBoundedPlane",
  "IfcDirection",
  "IfcElementarySurface",
  "IfcEllipse",
  "IfcGeometricRepresentationItem",
  "IfcLine",
  "IfcMappedItem",
  "IfcOffsetCurve2D",
  "IfcOffsetCurve3D",
  "IfcPlacement",
  "IfcPlane",
  "IfcPoint",
  "IfcPointOnCurve",
  "IfcPointOnSurface",
  "IfcPolyline",
  "IfcRationalBezierCurve",
  "IfcRectangularTrimmedSurface",
  "IfcRepresentationItem",
  "IfcRepresentationMap",
  "IfcSurface",
  "IfcSurfaceOfLinearExtrusion",
  "IfcSurfaceOfRevolution",
  "IfcSweptSurface",
  "IfcTrimmedCurve",
  "IfcVector"]

/-- List `geom_classes_ifc4` of `remove_geometry.py`, verbatim. -/
def geom_classes_ifc4 : List String := [
  "IfcAnnotationFillArea",
  "IfcBooleanResult",
  "IfcBooleanClippingResult",
  "IfcBoundingBox",
  "IfcCartesianPointList",
  "IfcCartesianPointList2D",
  "IfcCartesianPointList3D",
  "IfcCartesianTransformationOperator",
  "IfcCartesianTransformationOperator2D",
  "IfcCartesianTransformationOperator3D",
  "IfcCompositeCurveSegment",
  "IfcReparametrisedCompositeCurveSegment",
  "IfcCsgPrimitive3D",
  "IfcBlock",
  "IfcRectangularPyramid",
  "IfcRightCircularCone",
  "IfcRightCircularCylinder",
  "IfcSphere",
  "IfcCurve",
  "IfcBoundedCurve",
  "IfcConic",
  "IfcCircle",
  "IfcEllipse",
  "IfcLine",
  "IfcOffsetCurve2D",
  "IfcOffsetCurve3D",
  "IfcPcurve",
  "IfcSurfaceCurve",
  "IfcDirection",
  "IfcFillAreaStyleHatching",
  "IfcFillAreaStyleTiles",
  "IfcGeometricSet",
  "IfcGeometricCurveSet",
  "IfcHalfSpaceSolid",
  "IfcBoxedHalfSpace",
  "IfcPolygonalBoundedHalfSpace",
  "IfcLightSource",
  "IfcLightSourceAmbient",
  "IfcLightSourceDirectional",
  "IfcLightSourceGoniometric",
  "IfcLightSourcePositional",
  "IfcLightSourceSpot",
  "IfcPlacement",
  "IfcAxis1Placement",
  "IfcAxis2Placement2D",
  "IfcAxis2Placement3D",
  "IfcPlanarExtent",
  "IfcPlanarBox",
  "IfcPoint",
  "IfcCartesianPoint",
  "IfcPointOnCurve",
  "IfcPointOnSurface",
  "IfcSectionedSpine",
  "IfcShellBasedSurfaceModel",
  "IfcSolidModel",
  "IfcCsgSolid",
  "IfcManifoldSolidBrep",
  "IfcAdvancedBrep",
  "IfcFacetedBrep",
  "IfcSweptAreaSolid",
  "IfcExtrudedAreaSolid",
  "IfcFixedReferenceSweptAreaSolid",
  "IfcRevolvedAreaSolid",
  "IfcRevolvedAreaSolidTapered",
  "IfcSurfaceCurveSweptAreaSolid",
  "IfcSweptDiskSolid",
  "IfcSurface",
  "IfcBoundedSurface",
  "IfcBSplineSurface",
  "IfcBSplineSurfaceWithKnots",
  "IfcCurveBoundedPlane",
  "IfcCurveBoundedSurface",
  "IfcRectangularTrimmedSurface",
  "IfcElementarySurface",
  "IfcCylindricalSurface",
  "IfcPlane",
  "IfcSphericalSurface",
  "IfcToroidalSurface",
  "IfcSweptSurface",
  "IfcSurfaceOfLinearExtrusion",
  "IfcSurfaceOfRevolution",
  "IfcTessellatedItem",
  "IfcIndexedPolygonalFace",
  "IfcTessellatedFaceSet",
  "IfcPolygonalFaceSet",
  "IfcTriangulatedFaceSet",
  "IfcTextLiteral",
  "IfcTextLiteralWithExtent",
  "IfcVector"]

/-- Assignment `geom_classes_ifc4_3 = geom_classes_ifc4` (marked "to be updated"). -/
def geom_classes_ifc4_3 : List String := geom_classes_ifc4

/-- The `geom_classes` dispatch table. -/
def geomClassesOf : IfcVersion → List String
  | IfcVersion.ifc2x3 => geom_classes_ifc2x3
  | IfcVersion.ifc4 => geom_classes_ifc4
  | IfcVersion.ifc4_3 => geom_classes_ifc4_3

/-- The schema-detection loop: `version = None; for name, ns in
ifc_namespaces.items(): if str(ns) in graph_namespaces: version = name`.
A later match overwrites an earlier one, dict order is IFC2x3, IFC4,
IFC4_3. -/
def detectVersion (graphNamespaces : List String) : Option IfcVersion :=
  [IfcVersion.ifc2x3, IfcVersion.ifc4, IfcVersion.ifc4_3].foldl
    (fun acc v => if ifcNamespaceUri v ∈ graphNamespaces then some v else acc) none

/-- Comprehension `geom_uris = [IFC[cls] for cls in geom_classes[version]]`: the dialect's
geometry-class URI set. -/
def geomUris (v : IfcVersion) : List Term :=
  (geomClassesOf v).map (fun cls => Term.uri (ifcNamespaceUri v ++ cls))

/-- The `geom_subjects` set: every subject with an `rdf:type` triple whose
object is one of the dialect's geometry-class URIs. -/
def geomSubjects (g : RDFGraph) (uris : List Term) : List Term :=
  firstDedup (uris.flatMap (fun cls => subjectsOf g rdfType cls))

/-- Calls `g.remove((s, None, None)); g.remove((None, None, s))` folded over all
geometry subjects. -/
def removeGeomTriples (g : RDFGraph) (subjects : List Term) : RDFGraph :=
  subjects.foldl
    (fun h s => (h.filter (fun t => t.s ≠ s)).filter (fun t => t.o ≠ s)) g

/-- Function `remove_ifc_geometry`, from schema detection to the cleaned graph.
When no IFC namespace is detected, `version` is `None` and the Python
subscript `geom_classes[version]` raises `KeyError` before any removal or
serialization; that abort is the `Except.error` branch. -/
def remove_ifc_geometry (graphNamespaces : List String) (g : RDFGraph) :
    Except String RDFGraph :=
  match detectVersion graphNamespaces with
  | none => Except.error "KeyError: None"
  | some v => Except.ok (removeGeomTriples g (geomSubjects g (geomUris v)))

/-! ## link_ttl.py -/

/-- The `owl:sameAs` predicate. -/
def owlSameAs : Term := Term.uri "http://www.w3.org/2002/07/owl#sameAs"

/-- Namespace string of the Building Topology Ontology, `BOT` in
`link_ttl.py` and `select_bot_spaces.py`. -/
def botNs : String := "https://w3id.org/bot#"

/-- rdflib `g.objects(s, p)`: objects of all triples with the given
subject and predicate, each distinct object once. -/
def objectsOf (g : RDFGraph) (s p : Term) : List Term :=
  firstDedup ((g.filter (fun t => t.s = s && t.p = p)).map Triple.o)

/-- rdflib `g.predicate_objects(s)`: the (predicate, object) pairs of all
triples with the given subject, each distinct pair once. -/
def predicateObjectsOf (g : RDFGraph) (s : Term) : List (Term × Term) :=
  firstDedup ((g.filter (fun t => t.s = s)).map (fun t => (t.p, t.o)))

/-- Python `s.split(c)` on a character list: split at every occurrence of
the separator, keeping empty parts, as Python's `str.split` with an
explicit separator does. -/
def splitChar (c : Char) : List Char → List (List Char)
  | [] => [[]]
  | x :: xs =>
    let r := splitChar c xs
    if x = c then [] :: r
    else
      match r with
      | [] => [[x]]
      | h :: t => (x :: h) :: t

/-- Python `s.split(c)` on strings. -/
def pySplitOnChar (c : Char) (s : String) : List String :=
  (splitChar c s.data).map String.mk

/-- Python `l[-1]` with a default for the impossible empty case. -/
def lastD {α : Type} (d : α) : List α → α
  | [] => d
  | [x] => x
  | _ :: y :: xs => lastD d (y :: xs)

/-- Python `s.lower()` (ASCII case folding, which covers the URI
predicates at hand). -/
def pyLower (s : String) : String := String.mk (s.data.map Char.toLower)

/-- Python `s.strip()`: drop leading and trailing whitespace. -/
def pyStrip (s : String) : String :=
  String.mk (((s.data.dropWhile Char.isWhitespace).reverse.dropWhile
    Char.isWhitespace).reverse)

/-- Occurrence of a character sequence inside another. -/
def containsSeq (needle : List Char) : List Char → Bool
  | [] => needle.isEmpty
  | x :: xs => needle.isPrefixOf (x :: xs) || containsSeq needle xs

/-- Python substring test `needle in hay`. -/
def pyContains (hay needle : String) : Bool :=
  containsSeq needle.data hay.data

/-- Python `raw_uri.split('#')[-1] if '#' in raw_uri else
raw_uri.split('/')[-1]` of `get_proxy_name`. -/
def lastToken (raw : String) : String :=
  if raw.data.contains '#' then lastD "" (pySplitOnChar '#' raw)
  else lastD "" (pySplitOnChar '/' raw)

/-- The first loop of `get_proxy_name`: walk the `owl:sameAs` objects and
return the first nonempty extracted token (`if token: return token`). -/
def firstNonemptyToken : List Term → Option String
  | [] => none
  | o :: os =>
    let token := lastToken (termStr o)
    if token ≠ "" then some token else firstNonemptyToken os

/-- The fallback tail of `get_proxy_name`: the first predicate whose name
contains "name" case-insensitively with a literal object gives the
stripped literal, else "Unknown". -/
def nameFallback (g : RDFGraph) (s : Term) : String :=
  match (predicateObjectsOf g s).find?
      (fun po => pyContains (pyLower (termStr po.1)) "name" && isLit po.2) with
  | some po => pyStrip (termStr po.2)
  | none => "Unknown"

/-- Function `get_proxy_name` of `link_ttl.py`. -/
def get_proxy_name (g : RDFGraph) (s : Term) : String :=
  match firstNonemptyToken (objectsOf g s owlSameAs) with
  | some token => token
  | none => nameFallback g s

/-- The loop body of `add_to_skeleton`, folded over a subject list:
the state is the bucket dictionary (an association list, first match
wins on lookup) and the list of emitted `(label, name)` warnings. -/
def addToSkeletonFold (name : Term → String) (label : String)
    (subs : List Term) (start : List (String × Term) × List (String × String)) :
    List (String × Term) × List (String × String) :=
  subs.foldl
    (fun dw s =>
      if (dw.1.lookup (name s)).isNone then (dw.1 ++ [(name s, s)], dw.2)
      else (dw.1, dw.2 ++ [(label, name s)]))
    start

/-- Helper `add_to_skeleton(rdf_type, target_dict)` of
`extract_bot_skeleton`: populate a bucket from the subjects typed
`rdf_type`, naming each with `get_proxy_name` and warning on duplicates. -/
def add_to_skeleton (g : RDFGraph) (label : String) (rdf_type : Term)
    (target : List (String × Term)) :
    List (String × Term) × List (String × String) :=
  addToSkeletonFold (get_proxy_name g) label (subjectsOf g rdfType rdf_type)
    (target, [])

/-! ## select_bot_spaces.py -/

/-- Extraction targets `target_classes = [BOT.Site, BOT.Building,
BOT.Space, BOT.Storey]`. -/
def target_classes : List Term :=
  [Term.uri (botNs ++ "Site"), Term.uri (botNs ++ "Building"),
   Term.uri (botNs ++ "Space"), Term.uri (botNs ++ "Storey")]

/-- The module-level extraction loop of `select_bot_spaces.py`: for every
source triple `(s, rdf:type, o)` with `o` in the target list, add the type
triple and every source triple with subject `s` to the output graph. -/
def selectBotSpaces (source : RDFGraph) : RDFGraph :=
  (source.filter (fun t => t.p = rdfType)).foldl
    (fun out t =>
      if t.o ∈ target_classes then
        (out ++ [t]) ++ source.filter (fun t2 => t2.s = t.s)
      else out)
    []

/-! ## gml_fixing.py -/

/-- The deduplication loop of `gml_fixing.py` over the document-order list
of `gml:id` attribute values. `gen k` stands for the string
`str(uuid.uuid4())` returned by the k-th call of the generator; a value
already in `seen` is rewritten to `"GML_" + str(uuid.uuid4())`, a fresh
value is recorded in `seen` and kept. -/
def gmlFixIds (ids : List String) (gen : Nat → String) : List String :=
  go ids [] 0
where
  go : List String → List String → Nat → List String
    | [], _, _ => []
    | v :: rest, seen, k =>
      if v ∈ seen then ("GML_" ++ gen k) :: go rest seen (k + 1)
      else v :: go rest (v :: seen) k

/-! ## terrain_gml_fixing.py -/

/-- Child-element tags relevant to a `dem:TINRelief` block: `dem:tin`,
`dem:lod`, or anything else. -/
inductive GTag : Type where
  | tin | lod | other
  deriving DecidableEq, Repr

/-- A child element of a `TINRelief` block: its tag and its text
content (standing for the whole subtree). -/
structure XNode : Type where
  tag : GTag
  text : String
  deriving DecidableEq, Repr

/-- Position of the first child with the given tag: the composition of
lxml `element.find(tag)` (first matching direct child) and
`element.index(found)`. -/
def firstIdx (t : GTag) : List XNode → Option Nat
  | [] => none
  | x :: xs => if x.tag = t then some 0 else (firstIdx t xs).map (· + 1)

/-- The per-block body of `fix_citygml_relief_order` on a `TINRelief`
block's child list: skip when no `tin` child exists; insert a fresh `lod`
node with the default text immediately before `tin` when `lod` is
missing; move the `lod` node to immediately before `tin` when it sits
after `tin`; leave the block alone otherwise. -/
def processBlock (default_lod : String) (c : List XNode) : List XNode :=
  match firstIdx GTag.tin c with
  | none => c
  | some j =>
    match firstIdx GTag.lod c with
    | none => c.insertIdx j ⟨GTag.lod, default_lod⟩
    | some i =>
      if j < i then (c.eraseIdx i).insertIdx j (c.getD i ⟨GTag.lod, default_lod⟩)
      else c

/-- Function `fix_citygml_relief_order` restricted to its document
transformation: every `dem:TINRelief` block of the document is processed
independently by the loop body. -/
def fix_citygml_relief_order (default_lod : String)
    (doc : List (List XNode)) : List (List XNode) :=
  doc.map (processBlock default_lod)

/-! ## cep_job.py -/

/-- Class `SensorReading` of `cep_job.py`. Only presence or absence of
`temp` and `co2` matters to the filter stage, so their float payloads are
carried as integers scaled from the parsed values. -/
structure SensorReading : Type where
  sensor_id : String
  message : String
  timestamp : Int
  temp : Option Int
  co2 : Option Int
  deriving DecidableEq, Repr

/-- A Python runtime exception relevant here: attribute access on
`None`. -/
inductive PyExn : Type where
  | attributeAccessOnNone
  deriving DecidableEq, Repr

/-- The filter stage lambda of `cep_job.py`:
`lambda x: x is not None and x.temp is not None or x.co2 is not None`.
Python precedence parses this as
`(x is not None and x.temp is not None) or (x.co2 is not None)`, with
short-circuit evaluation; attribute access `x.co2` on `x = None` raises
an `AttributeError`. -/
def filterStage (x : Option SensorReading) : Except PyExn Bool := do
  let left ← match x with
    | some r => pure r.temp.isSome
    | none => pure false
  if left then
    pure true
  else
    match x with
    | some r => pure r.co2.isSome
    | none => Except.error PyExn.attributeAccessOnNone

/-- The filter the surrounding pipeline is written against: dropping the
`None` results of the map stage and readings with both values absent.
Modelled from the spec: readings that are entirely unparseable, or that
have both temperature and CO2 absent, are dropped from the stream. -/
def intendedFilterStage (x : Option SensorReading) : Bool :=
  match x with
  | none => false
  | some r => r.temp.isSome || r.co2.isSome

/-! ## Concrete example data used by the witnesses -/

/-- A concrete geometry subject. -/
def exPoint : Term := Term.uri "urn:p1"

/-- A concrete non-geometry triple that must survive stripping. -/
def exWallTriple : Triple :=
  ⟨Term.uri "urn:w", rdfType, Term.uri "urn:Wall"⟩

/-- A tiny IFC2x3 graph: a cartesian point, a wall referencing it, and the
wall's type. -/
def exGraphC1 : RDFGraph :=
  [⟨exPoint, rdfType,
      Term.uri (ifcNamespaceUri IfcVersion.ifc2x3 ++ "IfcCartesianPoint")⟩,
   ⟨Term.uri "urn:w", Term.uri "urn:ref", exPoint⟩,
   exWallTriple]

/-- A concrete subject node. -/
def exSubj : Term := Term.uri "urn:subject"

/-- A graph where the subject has an `owl:sameAs` target with a `#`
fragment. -/
def exGraphSameAs : RDFGraph :=
  [⟨exSubj, owlSameAs, Term.uri "https://example.org/data#IfcBuildingStorey_181"⟩]

/-- A graph where the subject only has a name-like property. -/
def exGraphName : RDFGraph :=
  [⟨exSubj, Term.uri "http://example.org/hasName", Term.lit " Lobby "⟩]

/-- A graph where the subject's only `owl:sameAs` target ends in `/`. -/
def exGraphSlash : RDFGraph :=
  [⟨exSubj, owlSameAs, Term.uri "https://example.org/data/"⟩]

/-- The `bot:Storey` class URI. -/
def botStorey : Term := Term.uri (botNs ++ "Storey")

/-- Two distinct storey subjects. -/
def exStorey1 : Term := Term.uri "urn:storey1"

/-- Second storey subject. -/
def exStorey2 : Term := Term.uri "urn:storey2"

/-- A graph where both storeys resolve to the same proxy name. -/
def exGraphDup : RDFGraph :=
  [⟨exStorey1, rdfType, botStorey⟩,
   ⟨exStorey1, owlSameAs, Term.uri "http://d#Storey_1"⟩,
   ⟨exStorey2, rdfType, botStorey⟩,
   ⟨exStorey2, owlSameAs, Term.uri "http://d#Storey_1"⟩]

/-- A stand-in UUID stream for the witness: the k-th draw is k copies of
`x`, so draws are pairwise distinct and never collide with the short
identifiers of the witness document. -/
def uuidGen (k : Nat) : String := String.mk (List.replicate k 'x')

/-- The witness identifier list, with one duplicate. -/
def exIds : List String := ["a", "b", "a"]

/-- A relief block whose `lod` child sits after its `tin` child. -/
def exBlockLodAfter : List XNode := [⟨GTag.tin, "T"⟩, ⟨GTag.lod, "1"⟩]

/-- A relief block with no `lod` child. -/
def exBlockMissingLod : List XNode := [⟨GTag.other, "env"⟩, ⟨GTag.tin, "T"⟩]

/-- A relief block whose `lod` child already precedes `tin`. -/
def exBlockLodBefore : List XNode := [⟨GTag.lod, "1"⟩, ⟨GTag.tin, "T"⟩]

/-- A relief block with no `tin` child. -/
def exBlockNoTin : List XNode := [⟨GTag.lod, "1"⟩, ⟨GTag.other, "x"⟩]

/-! ## General lemmas about the embedding's building blocks -/

theorem firstDedup_go_mem {α : Type} [DecidableEq α] (x : α) :
    ∀ (l seen : List α), x ∈ firstDedup.go seen l ↔ x ∈ l ∧ x ∉ seen := by
  intro l
  induction l with
  | nil => intro seen; simp [firstDedup.go]
  | cons y ys ih =>
    intro seen
    by_cases hy : y ∈ seen
    · simp only [firstDedup.go, if_pos hy, ih, List.mem_cons]
      constructor
      · rintro ⟨hx, hns⟩; exact ⟨Or.inr hx, hns⟩
      · rintro ⟨hx | hx, hns⟩
        · exact absurd (hx ▸ hy) hns
        · exact ⟨hx, hns⟩
    · simp only [firstDedup.go, if_neg hy, List.mem_cons, ih]
      constructor
      · rintro (rfl | ⟨hx, hns⟩)
        · exact ⟨Or.inl rfl, hy⟩
        · exact ⟨Or.inr hx, fun hs => hns (Or.inr hs)⟩
      · rintro ⟨rfl | hx, hns⟩
        · exact Or.inl rfl
        · by_cases hxy : x = y
          · exact Or.inl hxy
          · exact Or.inr ⟨hx, fun h => h.elim hxy hns⟩

theorem mem_firstDedup {α : Type} [DecidableEq α] (x : α) (l : List α) :
    x ∈ firstDedup l ↔ x ∈ l := by
  simpa using firstDedup_go_mem x l []

theorem mem_subjectsOf (g : RDFGraph) (p o s : Term) :
    s ∈ subjectsOf g p o ↔ ∃ t ∈ g, t.p = p ∧ t.o = o ∧ t.s = s := by
  simp only [subjectsOf, mem_firstDedup, List.mem_map, List.mem_filter,
    Bool.and_eq_true, decide_eq_true_eq]
  constructor
  · rintro ⟨t, ⟨ht, hp, ho⟩, rfl⟩; exact ⟨t, ht, hp, ho, rfl⟩
  · rintro ⟨t, ht, hp, ho, rfl⟩; exact ⟨t, ⟨ht, hp, ho⟩, rfl⟩

/-! ## C7 -/

/-- C7 counterexample: the fixed IFC2x3 geometry-class list does not have
43 entries; it has 44. -/
theorem C7_counterexample :
    geom_classes_ifc2x3.length = 44 ∧ ¬ geom_classes_ifc2x3.length = 43 :=
  ⟨rfl, by decide⟩

/-- C7 (amended): the fixed IFC2x3 geometry-class list contains exactly 44
entries, and the IFC4_3 list is an exact element-for-element copy of the
IFC4 list. -/
theorem C7_catalog_shape :
    geom_classes_ifc2x3.length = 44 ∧ geom_classes_ifc4_3 = geom_classes_ifc4 :=
  ⟨rfl, rfl⟩

/-! ## C6 -/

/-- C6: when none of the three known IFC namespace URIs occurs among the
graph's declared namespaces, the version stays undetermined and
`remove_ifc_geometry` aborts with the lookup error raised by the
per-version geometry-class table subscript, producing no output graph. -/
theorem C6_unknown_dialect_aborts (nss : List String) (g : RDFGraph)
    (h2x3 : ifcNamespaceUri IfcVersion.ifc2x3 ∉ nss)
    (h4 : ifcNamespaceUri IfcVersion.ifc4 ∉ nss)
    (h43 : ifcNamespaceUri IfcVersion.ifc4_3 ∉ nss) :
    detectVersion nss = none ∧
      remove_ifc_geometry nss g = Except.error "KeyError: None" := by
  have hd : detectVersion nss = none := by
    simp [detectVersion, h2x3, h4, h43]
  exact ⟨hd, by simp [remove_ifc_geometry, hd]⟩

/-- C6 witness: a graph declaring only an unrelated namespace aborts. -/
theorem C6_witness :
    detectVersion ["http://www.opengis.net/gml"] = none ∧
      remove_ifc_geometry ["http://www.opengis.net/gml"] [] =
        Except.error "KeyError: None" :=
  C6_unknown_dialect_aborts ["http://www.opengis.net/gml"] []
    (by decide) (by decide) (by decide)

/-! ## C2 -/

/-- C2: the filter stage does not drop the `None` result of the map stage;
evaluating the lambda at `None` reaches the attribute access `x.co2` on
`None` and raises, because `and` binds tighter than `or`. On a parsed
reading the filter agrees with the claim: it keeps the reading iff
temperature or CO2 is present. The intended filter would return false
(drop) at `None`. -/
theorem C2_filter_crashes_on_unparsed :
    filterStage none = Except.error PyExn.attributeAccessOnNone ∧
    (∀ r : SensorReading,
        filterStage (some r) = Except.ok (r.temp.isSome || r.co2.isSome)) ∧
    intendedFilterStage none = false := by
  refine ⟨rfl, fun r => ?_, rfl⟩
  cases h : r.temp <;> simp [filterStage, h, pure, Except.pure, Bind.bind, Except.bind]

/-! ## C8 -/

theorem selectBot_fold_mem (source : RDFGraph) :
    ∀ (l : List Triple) (acc : RDFGraph) (x : Triple),
      x ∈ l.foldl
          (fun out t =>
            if t.o ∈ target_classes then
              (out ++ [t]) ++ source.filter (fun t2 => t2.s = t.s)
            else out) acc ↔
        x ∈ acc ∨ ∃ t ∈ l, t.o ∈ target_classes ∧
          (x = t ∨ (x ∈ source ∧ x.s = t.s)) := by
  intro l
  induction l with
  | nil => intro acc x; simp
  | cons t ts ih =>
    intro acc x
    simp only [List.foldl_cons]
    rw [ih]
    by_cases ht : t.o ∈ target_classes
    · simp only [if_pos ht, List.mem_append, List.mem_filter, List.mem_cons,
        List.not_mem_nil, or_false, decide_eq_true_eq]
      constructor
      · rintro (((hx | rfl) | ⟨hx, hxs⟩) | ⟨t', ht', h1, h2⟩)
        · exact Or.inl hx
        · exact Or.inr ⟨x, Or.inl rfl, ht, Or.inl rfl⟩
        · exact Or.inr ⟨t, Or.inl rfl, ht, Or.inr ⟨hx, hxs⟩⟩
        · exact Or.inr ⟨t', Or.inr ht', h1, h2⟩
      · rintro (hx | ⟨t', rfl | ht', h1, h2⟩)
        · exact Or.inl (Or.inl (Or.inl hx))
        · rcases h2 with rfl | ⟨hx, hxs⟩
          · exact Or.inl (Or.inl (Or.inr rfl))
          · exact Or.inl (Or.inr ⟨hx, hxs⟩)
        · exact Or.inr ⟨t', ht', h1, h2⟩
    · simp only [if_neg ht, List.mem_cons]
      constructor
      · rintro (hx | ⟨t', ht', h1, h2⟩)
        · exact Or.inl hx
        · exact Or.inr ⟨t', Or.inr ht', h1, h2⟩
      · rintro (hx | ⟨t', rfl | ht', h1, h2⟩)
        · exact Or.inl hx
        · exact absurd h1 ht
        · exact Or.inr ⟨t', ht', h1, h2⟩

/-- C8: the BOT extractor's output contains exactly the source triples
whose subject carries an `rdf:type` declaration (in the source) whose
object is one of the four target classes, by exact URI equality; in
particular every such subject's type triple and every triple it is the
subject of is kept, and nothing else. -/
theorem C8_bot_extraction (source : RDFGraph) (t : Triple) :
    t ∈ selectBotSpaces source ↔
      t ∈ source ∧ ∃ c ∈ target_classes, Triple.mk t.s rdfType c ∈ source := by
  unfold selectBotSpaces
  rw [selectBot_fold_mem]
  simp only [List.not_mem_nil, false_or, List.mem_filter, decide_eq_true_eq]
  constructor
  · rintro ⟨t', ⟨ht'src, ht'p⟩, ht'o, hx⟩
    have hmk : Triple.mk t'.s rdfType t'.o = t' := by
      rw [← ht'p]
    have hxsrc : t ∈ source := by
      rcases hx with rfl | ⟨hx2, _⟩
      · exact ht'src
      · exact hx2
    have hsub : t.s = t'.s := by
      rcases hx with rfl | ⟨_, hxs⟩
      · rfl
      · exact hxs
    refine ⟨hxsrc, t'.o, ht'o, ?_⟩
    rw [hsub, hmk]
    exact ht'src
  · rintro ⟨htsrc, c, hc, hdecl⟩
    exact ⟨Triple.mk t.s rdfType c, ⟨hdecl, rfl⟩, hc, Or.inr ⟨htsrc, rfl⟩⟩

/-! ## C1 -/

theorem mem_removeGeomTriples :
    ∀ (subjects : List Term) (g : RDFGraph) (t : Triple),
      t ∈ removeGeomTriples g subjects ↔
        t ∈ g ∧ ∀ s ∈ subjects, t.s ≠ s ∧ t.o ≠ s := by
  intro subjects
  induction subjects with
  | nil => intro g t; simp [removeGeomTriples]
  | cons s ss ih =>
    intro g t
    have hstep : removeGeomTriples g (s :: ss) =
        removeGeomTriples ((g.filter (fun t => t.s ≠ s)).filter (fun t => t.o ≠ s)) ss :=
      rfl
    rw [hstep, ih]
    simp only [List.mem_filter, decide_eq_true_eq, List.mem_cons, ne_eq]
    constructor
    · rintro ⟨⟨⟨hg, hs⟩, ho⟩, hall⟩
      exact ⟨hg, fun s' hs' => hs'.elim (fun h => h ▸ ⟨hs, ho⟩) (hall s')⟩
    · rintro ⟨hg, hall⟩
      exact ⟨⟨⟨hg, (hall s (Or.inl rfl)).1⟩, (hall s (Or.inl rfl)).2⟩,
        fun s' hs' => hall s' (Or.inr hs')⟩

theorem mem_geomSubjects (g : RDFGraph) (uris : List Term) (x : Term) :
    x ∈ geomSubjects g uris ↔ ∃ u ∈ uris, x ∈ subjectsOf g rdfType u := by
  simp [geomSubjects, mem_firstDedup, List.mem_flatMap]

/-- C1: with a resolved IFC dialect, every subject declared (by
`rdf:type`) to be an instance of one of the dialect's geometry-class URIs
appears in the output of `remove_ifc_geometry` neither in subject
position nor in object position. -/
theorem C1_geometry_stripping (nss : List String) (g : RDFGraph)
    (v : IfcVersion) (subj c : Term) (out : RDFGraph)
    (hv : detectVersion nss = some v)
    (hdecl : Triple.mk subj rdfType c ∈ g)
    (hc : c ∈ geomUris v)
    (hout : remove_ifc_geometry nss g = Except.ok out) :
    ∀ t ∈ out, t.s ≠ subj ∧ t.o ≠ subj := by
  have hout' : removeGeomTriples g (geomSubjects g (geomUris v)) = out := by
    unfold remove_ifc_geometry at hout
    rw [hv] at hout
    exact Except.ok.inj hout
  have hsub : subj ∈ geomSubjects g (geomUris v) := by
    rw [mem_geomSubjects]
    exact ⟨c, hc, (mem_subjectsOf g rdfType c subj).2 ⟨_, hdecl, rfl, rfl, rfl⟩⟩
  intro t ht
  rw [← hout'] at ht
  exact ((mem_removeGeomTriples _ g t).1 ht).2 subj hsub

/-- C1 witness: in the example IFC2x3 graph, the wall's type triple
survives and no longer touches the stripped cartesian point. -/
theorem C1_witness : exWallTriple.s ≠ exPoint ∧ exWallTriple.o ≠ exPoint :=
  C1_geometry_stripping [ifcNamespaceUri IfcVersion.ifc2x3] exGraphC1
    IfcVersion.ifc2x3 exPoint
    (Term.uri (ifcNamespaceUri IfcVersion.ifc2x3 ++ "IfcCartesianPoint"))
    [exWallTriple] (by decide) (by decide) (by decide) rfl
    exWallTriple (by decide)

/-! ## C5 -/

/-- The name-property predicate of the fallback loop of
`get_proxy_name`. -/
def namePropPred (po : Term × Term) : Bool :=
  pyContains (pyLower (termStr po.1)) "name" && isLit po.2

/-- C5: `get_proxy_name` first derives the token after the last `#` (or,
failing that, the last `/`) of an `owl:sameAs` target; with no usable
`owl:sameAs` target it falls back to the stripped first literal of a
predicate whose name contains "name" case-insensitively; with neither it
returns "Unknown". The three closed conjuncts run the spec's examples. -/
theorem C5_proxy_name_fallback_order :
    get_proxy_name exGraphSameAs exSubj = "IfcBuildingStorey_181" ∧
    get_proxy_name exGraphName exSubj = "Lobby" ∧
    get_proxy_name [] exSubj = "Unknown" ∧
    (∀ (g : RDFGraph) (s o : Term) (os : List Term),
        objectsOf g s owlSameAs = o :: os → lastToken (termStr o) ≠ "" →
        get_proxy_name g s = lastToken (termStr o)) ∧
    (∀ (g : RDFGraph) (s : Term) (po : Term × Term),
        objectsOf g s owlSameAs = [] →
        (predicateObjectsOf g s).find? namePropPred = some po →
        get_proxy_name g s = pyStrip (termStr po.2)) ∧
    (∀ (g : RDFGraph) (s : Term),
        objectsOf g s owlSameAs = [] →
        (predicateObjectsOf g s).find? namePropPred = none →
        get_proxy_name g s = "Unknown") := by
  refine ⟨by decide, by decide, by decide, ?_, ?_, ?_⟩
  · intro g s o os hobj htok
    unfold get_proxy_name
    rw [hobj]
    simp [firstNonemptyToken, htok]
  · intro g s po hobj hfind
    unfold get_proxy_name
    rw [hobj]
    simp only [firstNonemptyToken]
    unfold nameFallback
    rw [show (fun po : Term × Term =>
      pyContains (pyLower (termStr po.1)) "name" && isLit po.2) = namePropPred from rfl]
    rw [hfind]
  · intro g s hobj hfind
    unfold get_proxy_name
    rw [hobj]
    simp only [firstNonemptyToken]
    unfold nameFallback
    rw [show (fun po : Term × Term =>
      pyContains (pyLower (termStr po.1)) "name" && isLit po.2) = namePropPred from rfl]
    rw [hfind]

/-- C5 witness: the general clauses applied at the three example
graphs. -/
theorem C5_witness :
    get_proxy_name exGraphSameAs exSubj =
      lastToken (termStr (Term.uri "https://example.org/data#IfcBuildingStorey_181")) ∧
    get_proxy_name exGraphName exSubj = pyStrip (termStr (Term.lit " Lobby ")) ∧
    get_proxy_name [] exSubj = "Unknown" :=
  ⟨C5_proxy_name_fallback_order.2.2.2.1 exGraphSameAs exSubj
      (Term.uri "https://example.org/data#IfcBuildingStorey_181") []
      (by decide) (by decide),
   C5_proxy_name_fallback_order.2.2.2.2.1 exGraphName exSubj
      (Term.uri "http://example.org/hasName", Term.lit " Lobby ")
      (by decide) (by decide),
   C5_proxy_name_fallback_order.2.2.2.2.2 [] exSubj (by decide) (by decide)⟩

/-! ## C10 -/

theorem firstNonemptyToken_eq_none :
    ∀ l : List Term, (∀ o ∈ l, lastToken (termStr o) = "") →
      firstNonemptyToken l = none := by
  intro l
  induction l with
  | nil => intro _; rfl
  | cons o os ih =>
    intro h
    have ho := h o (List.mem_cons_self o os)
    simp only [firstNonemptyToken, ho]
    exact ih fun o' ho' => h o' (List.mem_cons_of_mem o ho')

/-- C10: when every `owl:sameAs` target of the subject yields an empty
trailing token (the URI ends in `#` or `/`), `get_proxy_name` never
returns that empty token; it falls through to the name-property fallback
(which itself ends at "Unknown"). -/
theorem C10_empty_token_skipped (g : RDFGraph) (s : Term)
    (h : ∀ o ∈ objectsOf g s owlSameAs, lastToken (termStr o) = "") :
    get_proxy_name g s = nameFallback g s := by
  unfold get_proxy_name
  rw [firstNonemptyToken_eq_none _ h]

/-- C10 witness: a subject whose only `owl:sameAs` target ends in `/`
resolves through the fallback, here to "Unknown". -/
theorem C10_witness : get_proxy_name exGraphSlash exSubj = nameFallback exGraphSlash exSubj :=
  C10_empty_token_skipped exGraphSlash exSubj (by decide)

/-! ## C9 -/

theorem lookup_append_of_some {d d' : List (String × Term)} {n : String}
    {v : Term} (h : d.lookup n = some v) : (d ++ d').lookup n = some v := by
  induction d with
  | nil => simp [List.lookup] at h
  | cons p ps ih =>
    obtain ⟨a, b⟩ := p
    simp only [List.cons_append, List.lookup] at h ⊢
    cases hab : (n == a) with
    | true => rw [hab] at h; exact h
    | false => rw [hab] at h; exact ih h

theorem lookup_append_of_none {d : List (String × Term)} {n : String}
    (d' : List (String × Term)) (h : d.lookup n = none) :
    (d ++ d').lookup n = d'.lookup n := by
  induction d with
  | nil => rfl
  | cons p ps ih =>
    obtain ⟨a, b⟩ := p
    simp only [List.cons_append, List.lookup] at h ⊢
    cases hab : (n == a) with
    | true => rw [hab] at h; exact absurd h (by simp)
    | false => rw [hab] at h; exact ih h

theorem skel_fold_lookup_some (name : Term → String) (label n : String) :
    ∀ (subs : List Term) (d : List (String × Term))
      (w : List (String × String)) (v : Term),
      d.lookup n = some v →
      (addToSkeletonFold name label subs (d, w)).1.lookup n = some v ∧
      ((addToSkeletonFold name label subs (d, w)).2.filter
          (fun q => q = (label, n))).length =
        (w.filter (fun q => q = (label, n))).length +
          (subs.filter (fun s => name s = n)).length := by
  intro subs
  induction subs with
  | nil => intro d w v h; simpa [addToSkeletonFold] using h
  | cons s ss ih =>
    intro d w v h
    have hstep : addToSkeletonFold name label (s :: ss) (d, w) =
        addToSkeletonFold name label ss
          (if (d.lookup (name s)).isNone then (d ++ [(name s, s)], w)
           else (d, w ++ [(label, name s)])) := rfl
    rw [hstep]
    by_cases hins : (d.lookup (name s)).isNone
    · have hsn : name s ≠ n := by
        intro he
        rw [he, h] at hins
        simp at hins
      rw [if_pos hins]
      have hlk : (d ++ [(name s, s)]).lookup n = some v := lookup_append_of_some h
      obtain ⟨h1, h2⟩ := ih (d ++ [(name s, s)]) w v hlk
      refine ⟨h1, ?_⟩
      rw [h2]
      have : (s :: ss).filter (fun s => name s = n) =
          ss.filter (fun s => name s = n) := by
        simp [List.filter_cons, hsn]
      rw [this]
    · rw [if_neg hins]
      obtain ⟨h1, h2⟩ := ih d (w ++ [(label, name s)]) v h
      refine ⟨h1, ?_⟩
      rw [h2]
      by_cases hsn : name s = n
      · simp [List.filter_append, List.filter_cons, hsn]
        omega
      · have hq : ¬ ((label, name s) = (label, n)) := by
          intro he
          exact hsn (congrArg Prod.snd he)
        simp [List.filter_append, List.filter_cons, hsn, hq]

theorem skel_fold_lookup_none (name : Term → String) (label n : String) :
    ∀ (subs : List Term) (d : List (String × Term))
      (w : List (String × String)),
      d.lookup n = none →
      ∀ s1 tl, subs.filter (fun s => name s = n) = s1 :: tl →
        (addToSkeletonFold name label subs (d, w)).1.lookup n = some s1 ∧
        ((addToSkeletonFold name label subs (d, w)).2.filter
            (fun q => q = (label, n))).length =
          (w.filter (fun q => q = (label, n))).length + tl.length := by
  intro subs
  induction subs with
  | nil => intro d w _ s1 tl hf; simp at hf
  | cons s ss ih =>
    intro d w h s1 tl hf
    have hstep : addToSkeletonFold name label (s :: ss) (d, w) =
        addToSkeletonFold name label ss
          (if (d.lookup (name s)).isNone then (d ++ [(name s, s)], w)
           else (d, w ++ [(label, name s)])) := rfl
    rw [hstep]
    by_cases hsn : name s = n
    · have hins : (d.lookup (name s)).isNone := by rw [hsn, h]; rfl
      rw [if_pos hins]
      have hfc : (s :: ss).filter (fun s => name s = n) =
          s :: ss.filter (fun s => name s = n) := by
        simp [List.filter_cons, hsn]
      rw [hfc] at hf
      obtain ⟨rfl, rfl⟩ : s = s1 ∧ ss.filter (fun s => name s = n) = tl := by
        refine ⟨(List.cons.injEq _ _ _ _ ▸ hf).1, (List.cons.injEq _ _ _ _ ▸ hf).2⟩
      have hlk : (d ++ [(name s, s)]).lookup n = some s := by
        rw [lookup_append_of_none _ h, hsn]
        simp [List.lookup]
      exact skel_fold_lookup_some name label n ss (d ++ [(name s, s)]) w s hlk
    · have hfc : (s :: ss).filter (fun s => name s = n) =
          ss.filter (fun s => name s = n) := by
        simp [List.filter_cons, hsn]
      rw [hfc] at hf
      by_cases hins : (d.lookup (name s)).isNone
      · rw [if_pos hins]
        have hlk : (d ++ [(name s, s)]).lookup n = none := by
          rw [lookup_append_of_none _ h]
          have hb : (n == name s) = false := beq_eq_false_iff_ne.mpr (Ne.symm hsn)
          simp [List.lookup, hb]
        exact ih (d ++ [(name s, s)]) w hlk s1 tl hf
      · rw [if_neg hins]
        have hq : ¬ ((label, name s) = (label, n)) := by
          intro he
          exact hsn (congrArg Prod.snd he)
        obtain ⟨h1, h2⟩ := ih d (w ++ [(label, name s)]) h s1 tl hf
        refine ⟨h1, ?_⟩
        rw [h2]
        simp [List.filter_append, List.filter_cons, hq]

/-- C9: when exactly two distinct subjects of the bucket's target class
resolve to the same proxy name, the finished bucket maps that name to the
first-encountered subject (the later one never overwrites it), and
exactly one warning carrying the graph label and the duplicate name is
emitted for the collision. -/
theorem C9_first_seen_wins (g : RDFGraph) (label : String) (ty : Term)
    (n : String) (s1 s2 : Term) (_hne : s1 ≠ s2)
    (hdup : (subjectsOf g rdfType ty).filter
        (fun s => get_proxy_name g s = n) = [s1, s2]) :
    (add_to_skeleton g label ty []).1.lookup n = some s1 ∧
    ((add_to_skeleton g label ty []).2.filter
        (fun q => q = (label, n))).length = 1 := by
  have h := skel_fold_lookup_none (get_proxy_name g) label n
    (subjectsOf g rdfType ty) [] [] rfl s1 [s2] hdup
  unfold add_to_skeleton
  simpa using h

/-- C9 witness: the duplicate-storey graph yields the first storey in the
bucket and a single warning. -/
theorem C9_witness :
    (add_to_skeleton exGraphDup "Arch" botStorey []).1.lookup "Storey_1" =
      some exStorey1 ∧
    ((add_to_skeleton exGraphDup "Arch" botStorey []).2.filter
        (fun q => q = ("Arch", "Storey_1"))).length = 1 :=
  C9_first_seen_wins exGraphDup "Arch" botStorey "Storey_1" exStorey1 exStorey2
    (by decide) (by decide)

/-! ## C4 -/

theorem firstIdx_cons (t : GTag) (a : XNode) (as : List XNode) :
    firstIdx t (a :: as) =
      if a.tag = t then some 0 else (firstIdx t as).map (· + 1) := rfl

theorem firstIdx_append_cons (t : GTag) :
    ∀ (pre : List XNode) (x : XNode) (suf : List XNode),
      (∀ y ∈ pre, y.tag ≠ t) → x.tag = t →
      firstIdx t (pre ++ x :: suf) = some pre.length := by
  intro pre
  induction pre with
  | nil => intro x suf _ hx; simp [firstIdx_cons, hx]
  | cons a as ih =>
    intro x suf hpre hx
    have ha : a.tag ≠ t := hpre a (List.mem_cons_self _ _)
    rw [List.cons_append, firstIdx_cons, if_neg ha,
      ih x suf (fun y hy => hpre y (List.mem_cons_of_mem _ hy)) hx]
    rfl

theorem firstIdx_some_decomp (t : GTag) :
    ∀ (l : List XNode) (j : Nat), firstIdx t l = some j →
      ∃ pre x suf, l = pre ++ x :: suf ∧ pre.length = j ∧ x.tag = t ∧
        ∀ y ∈ pre, y.tag ≠ t := by
  intro l
  induction l with
  | nil => intro j h; exact absurd h (by simp [firstIdx])
  | cons a as ih =>
    intro j h
    rw [firstIdx_cons] at h
    by_cases ha : a.tag = t
    · rw [if_pos ha] at h
      obtain rfl : 0 = j := Option.some.inj h
      exact ⟨[], a, as, rfl, rfl, ha, by simp⟩
    · rw [if_neg ha] at h
      cases hm : firstIdx t as with
      | none => rw [hm] at h; exact absurd h (by simp)
      | some k =>
        rw [hm, Option.map_some'] at h
        obtain ⟨pre, x, suf, heq, hlen, hx, hpre⟩ := ih k hm
        refine ⟨a :: pre, x, suf, by rw [heq]; rfl, ?_, hx, ?_⟩
        · rw [List.length_cons, hlen]
          exact Option.some.inj h
        · intro y hy
          rcases List.mem_cons.1 hy with rfl | hy2
          · exact ha
          · exact hpre y hy2

theorem firstIdx_eq_none_iff (t : GTag) :
    ∀ l : List XNode, firstIdx t l = none ↔ ∀ y ∈ l, y.tag ≠ t := by
  intro l
  induction l with
  | nil => simp [firstIdx]
  | cons a as ih =>
    rw [firstIdx_cons]
    by_cases ha : a.tag = t
    · rw [if_pos ha]
      constructor
      · intro h
        exact absurd h (by simp)
      · intro h
        exact absurd ha (h a (List.mem_cons_self a as))
    · rw [if_neg ha]
      constructor
      · intro h y hy
        rcases List.mem_cons.1 hy with rfl | hy2
        · exact ha
        · exact ih.1 (by simpa using h) y hy2
      · intro h
        rw [ih.2 fun y hy => h y (List.mem_cons_of_mem _ hy)]
        rfl

theorem firstIdx_append_of_none (t : GTag) :
    ∀ (pre rest : List XNode), firstIdx t pre = none →
      firstIdx t (pre ++ rest) = (firstIdx t rest).map (· + pre.length) := by
  intro pre
  induction pre with
  | nil => intro rest _; simp
  | cons a as ih =>
    intro rest h
    rw [firstIdx_cons] at h
    by_cases ha : a.tag = t
    · rw [if_pos ha] at h
      exact absurd h (by simp)
    · rw [if_neg ha] at h
      have has : firstIdx t as = none := by simpa using h
      rw [List.cons_append, firstIdx_cons, if_neg ha, ih rest has]
      cases firstIdx t rest with
      | none => rfl
      | some k =>
        rw [Option.map_some', Option.map_some', Option.map_some',
          List.length_cons]
        exact congrArg some (by omega)

theorem firstIdx_append_of_some (t : GTag) :
    ∀ (pre rest : List XNode) (k : Nat), firstIdx t pre = some k →
      firstIdx t (pre ++ rest) = some k := by
  intro pre
  induction pre with
  | nil => intro rest k h; exact absurd h (by simp [firstIdx])
  | cons a as ih =>
    intro rest k h
    rw [firstIdx_cons] at h
    rw [List.cons_append, firstIdx_cons]
    by_cases ha : a.tag = t
    · rw [if_pos ha] at h ⊢
      exact h
    · rw [if_neg ha] at h ⊢
      cases hm : firstIdx t as with
      | none => rw [hm] at h; exact absurd h (by simp)
      | some k2 =>
        rw [hm, Option.map_some'] at h
        rw [ih rest k2 hm, Option.map_some']
        exact h

theorem firstIdx_some_lt_length (t : GTag) :
    ∀ (l : List XNode) (j : Nat), firstIdx t l = some j → j < l.length := by
  intro l j h
  obtain ⟨pre, x, suf, rfl, rfl, _, _⟩ := firstIdx_some_decomp t l j h
  simp

theorem insertIdx_at_length (x : XNode) :
    ∀ (pre suf : List XNode), List.insertIdx pre.length x (pre ++ suf) =
      pre ++ x :: suf := by
  intro pre
  induction pre with
  | nil => intro suf; rfl
  | cons a as ih =>
    intro suf
    rw [List.length_cons, List.cons_append, List.cons_append]
    rw [show List.insertIdx (as.length + 1) x (a :: (as ++ suf)) =
      a :: List.insertIdx as.length x (as ++ suf) from rfl, ih suf]

theorem eraseIdx_at_length :
    ∀ (pre : List XNode) (x : XNode) (suf : List XNode),
      (pre ++ x :: suf).eraseIdx pre.length = pre ++ suf := by
  intro pre
  induction pre with
  | nil => intro x suf; rfl
  | cons a as ih =>
    intro x suf
    rw [List.cons_append, List.length_cons]
    rw [show (a :: (as ++ x :: suf)).eraseIdx (as.length + 1) =
      a :: (as ++ x :: suf).eraseIdx as.length from rfl, ih x suf]
    rfl

theorem getD_at_length :
    ∀ (pre : List XNode) (x : XNode) (suf : List XNode) (d : XNode),
      (pre ++ x :: suf).getD pre.length d = x := by
  intro pre
  induction pre with
  | nil => intro x suf d; rfl
  | cons a as ih => intro x suf d; simpa using ih x suf d

/-- C4: per `TINRelief` block of the processed document — a block without
a `tin` child is skipped unchanged; a block with `tin` but no `lod` gains
exactly one `lod` child, carrying the caller-supplied default text,
placed immediately before the first `tin`; a block whose first `lod`
sits after the first `tin` ends with that `lod` immediately before the
`tin`; a block whose `lod` already precedes `tin` is left untouched. -/
theorem C4_relief_reorder (d : String) (c : List XNode) :
    (firstIdx GTag.tin c = none → processBlock d c = c) ∧
    (∀ j, firstIdx GTag.tin c = some j → firstIdx GTag.lod c = none →
      ((processBlock d c).filter (fun x => x.tag = GTag.lod) =
          [⟨GTag.lod, d⟩] ∧
        firstIdx GTag.lod (processBlock d c) = some j ∧
        firstIdx GTag.tin (processBlock d c) = some (j + 1))) ∧
    (∀ j i, firstIdx GTag.tin c = some j → firstIdx GTag.lod c = some i →
      j < i →
      (firstIdx GTag.lod (processBlock d c) = some j ∧
        firstIdx GTag.tin (processBlock d c) = some (j + 1))) ∧
    (∀ j i, firstIdx GTag.tin c = some j → firstIdx GTag.lod c = some i →
      i < j → processBlock d c = c) := by
  refine ⟨?_, ?_, ?_, ?_⟩
  · intro h
    unfold processBlock
    rw [h]
  · intro j htin hlod
    have hout : processBlock d c = List.insertIdx j ⟨GTag.lod, d⟩ c := by
      unfold processBlock
      rw [htin, hlod]
    obtain ⟨pre, x, suf, rfl, rfl, hx, hpre⟩ :=
      firstIdx_some_decomp GTag.tin c j htin
    have hnolod : ∀ y ∈ pre ++ x :: suf, y.tag ≠ GTag.lod :=
      (firstIdx_eq_none_iff GTag.lod _).1 hlod
    rw [hout, insertIdx_at_length]
    refine ⟨?_, ?_, ?_⟩
    · have h1 : pre.filter (fun x => x.tag = GTag.lod) = [] := by
        rw [List.filter_eq_nil_iff]
        intro y hy
        simpa using hnolod y (List.mem_append_left _ hy)
      have h2 : (x :: suf).filter (fun x => x.tag = GTag.lod) = [] := by
        rw [List.filter_eq_nil_iff]
        intro y hy
        simpa using hnolod y (List.mem_append_right _ hy)
      rw [List.filter_append, h1]
      simpa [List.filter_cons] using h2
    · exact firstIdx_append_cons GTag.lod pre _ _
        (fun y hy => hnolod y (List.mem_append_left _ hy)) rfl
    · have heq : pre ++ (⟨GTag.lod, d⟩ : XNode) :: x :: suf =
          (pre ++ [⟨GTag.lod, d⟩]) ++ x :: suf := by
        simp
      rw [heq]
      have hres := firstIdx_append_cons GTag.tin (pre ++ [⟨GTag.lod, d⟩]) x suf
        (by
          intro y hy
          rcases List.mem_append.1 hy with hy2 | hy2
          · exact hpre y hy2
          · rcases List.mem_singleton.1 hy2 with rfl
            simp)
        hx
      simpa using hres
  · intro j i htin hlod hji
    obtain ⟨pre, x, suf, rfl, rfl, hx, hpre⟩ :=
      firstIdx_some_decomp GTag.tin c j htin
    have hprelod : firstIdx GTag.lod pre = none := by
      cases hm : firstIdx GTag.lod pre with
      | none => rfl
      | some k =>
        have hk : k < pre.length := firstIdx_some_lt_length GTag.lod pre k hm
        have hall : firstIdx GTag.lod (pre ++ x :: suf) = some k :=
          firstIdx_append_of_some GTag.lod pre (x :: suf) k hm
        rw [hlod] at hall
        have : i = k := Option.some.inj hall
        omega
    have hxnl : x.tag ≠ GTag.lod := by
      rw [hx]
      intro h
      cases h
    have hsplit : firstIdx GTag.lod (pre ++ x :: suf) =
        (firstIdx GTag.lod (x :: suf)).map (· + pre.length) :=
      firstIdx_append_of_none GTag.lod pre (x :: suf) hprelod
    rw [hlod, firstIdx_cons, if_neg hxnl] at hsplit
    cases hm : firstIdx GTag.lod suf with
    | none =>
      rw [hm] at hsplit
      exact absurd hsplit (by simp)
    | some k =>
      rw [hm, Option.map_some', Option.map_some'] at hsplit
      have hik : i = k + 1 + pre.length := Option.some.inj hsplit
      obtain ⟨p2, y, s2, hseq, hp2len, hytag, hp2free⟩ :=
        firstIdx_some_decomp GTag.lod suf k hm
      have hceq : pre ++ x :: suf = (pre ++ x :: p2) ++ y :: s2 := by
        rw [hseq]
        simp
      have hilen : (pre ++ x :: p2).length = i := by
        simp only [List.length_append, List.length_cons, hp2len]
        omega
      have hstep : processBlock d (pre ++ x :: suf) =
          if pre.length < i then
            List.insertIdx pre.length
              ((pre ++ x :: suf).getD i ⟨GTag.lod, d⟩)
              ((pre ++ x :: suf).eraseIdx i)
          else pre ++ x :: suf := by
        unfold processBlock
        rw [htin, hlod]
      have hout : processBlock d (pre ++ x :: suf) =
          List.insertIdx pre.length y (pre ++ (x :: (p2 ++ s2))) := by
        rw [hstep, if_pos hji, hceq, ← hilen, eraseIdx_at_length,
          getD_at_length]
        congr 1
        simp
      rw [hout, insertIdx_at_length]
      constructor
      · exact firstIdx_append_cons GTag.lod pre y (x :: (p2 ++ s2))
          ((firstIdx_eq_none_iff GTag.lod pre).1 hprelod) hytag
      · have heq2 : pre ++ y :: x :: (p2 ++ s2) =
            (pre ++ [y]) ++ x :: (p2 ++ s2) := by simp
        rw [heq2]
        have hres := firstIdx_append_cons GTag.tin (pre ++ [y]) x (p2 ++ s2)
          (by
            intro z hz
            rcases List.mem_append.1 hz with hz2 | hz2
            · exact hpre z hz2
            · rcases List.mem_singleton.1 hz2 with rfl
              rw [hytag]
              intro h
              cases h)
          hx
        simpa using hres
  · intro j i htin hlod hij
    have hstep : processBlock d c =
        if j < i then
          List.insertIdx j (c.getD i ⟨GTag.lod, d⟩) (c.eraseIdx i)
        else c := by
      unfold processBlock
      rw [htin, hlod]
    rw [hstep, if_neg (by omega)]

/-- C4 witness: the three interesting block shapes processed concretely,
through the theorem's clauses. -/
theorem C4_witness :
    processBlock "2" exBlockNoTin = exBlockNoTin ∧
    ((processBlock "2" exBlockMissingLod).filter
        (fun x => x.tag = GTag.lod) = [⟨GTag.lod, "2"⟩] ∧
      firstIdx GTag.lod (processBlock "2" exBlockMissingLod) = some 1 ∧
      firstIdx GTag.tin (processBlock "2" exBlockMissingLod) = some 2) ∧
    (firstIdx GTag.lod (processBlock "2" exBlockLodAfter) = some 0 ∧
      firstIdx GTag.tin (processBlock "2" exBlockLodAfter) = some 1) ∧
    processBlock "2" exBlockLodBefore = exBlockLodBefore :=
  ⟨(C4_relief_reorder "2" exBlockNoTin).1 (by decide),
   (C4_relief_reorder "2" exBlockMissingLod).2.1 1 (by decide) (by decide),
   (C4_relief_reorder "2" exBlockLodAfter).2.2.1 0 1 (by decide) (by decide)
     (by decide),
   (C4_relief_reorder "2" exBlockLodBefore).2.2.2 1 0 (by decide) (by decide)
     (by decide)⟩

/-! ## C3 -/

theorem string_append_cancel_left {a b c : String} (h : a ++ b = a ++ c) :
    b = c := by
  have hd := congrArg String.data h
  rw [String.data_append, String.data_append] at hd
  exact String.ext (List.append_cancel_left hd)

theorem gmlFix_go_length (gen : Nat → String) :
    ∀ (l seen : List String) (k : Nat),
      (gmlFixIds.go gen l seen k).length = l.length := by
  intro l
  induction l with
  | nil => intro seen k; rfl
  | cons v rest ih =>
    intro seen k
    by_cases hv : v ∈ seen
    · rw [gmlFixIds.go, if_pos hv, List.length_cons, ih, List.length_cons]
    · rw [gmlFixIds.go, if_neg hv, List.length_cons, ih, List.length_cons]

theorem gmlFix_go_mem (gen : Nat → String) :
    ∀ (l seen : List String) (k : Nat) (x : String),
      x ∈ gmlFixIds.go gen l seen k →
      (x ∈ l ∧ x ∉ seen) ∨ ∃ m, k ≤ m ∧ x = "GML_" ++ gen m := by
  intro l
  induction l with
  | nil => intro seen k x hx; exact absurd hx (by simp [gmlFixIds.go])
  | cons v rest ih =>
    intro seen k x hx
    by_cases hv : v ∈ seen
    · rw [gmlFixIds.go, if_pos hv] at hx
      rcases List.mem_cons.1 hx with rfl | hx2
      · exact Or.inr ⟨k, le_refl k, rfl⟩
      · rcases ih seen (k + 1) x hx2 with ⟨h1, h2⟩ | ⟨m, hm, he⟩
        · exact Or.inl ⟨List.mem_cons_of_mem _ h1, h2⟩
        · exact Or.inr ⟨m, by omega, he⟩
    · rw [gmlFixIds.go, if_neg hv] at hx
      rcases List.mem_cons.1 hx with rfl | hx2
      · exact Or.inl ⟨List.mem_cons_self _ _, hv⟩
      · rcases ih (v :: seen) k x hx2 with ⟨h1, h2⟩ | ⟨m, hm, he⟩
        · exact Or.inl ⟨List.mem_cons_of_mem _ h1,
            fun hs => h2 (List.mem_cons_of_mem _ hs)⟩
        · exact Or.inr ⟨m, hm, he⟩

theorem gmlFix_go_nodup (gen : Nat → String)
    (hinj : ∀ j k, gen j = gen k → j = k) :
    ∀ (l seen : List String) (k : Nat),
      (∀ m, k ≤ m → ("GML_" ++ gen m) ∉ l) →
      (gmlFixIds.go gen l seen k).Nodup := by
  intro l
  induction l with
  | nil => intro seen k _; exact List.nodup_nil
  | cons v rest ih =>
    intro seen k hG
    by_cases hv : v ∈ seen
    · rw [gmlFixIds.go, if_pos hv, List.nodup_cons]
      constructor
      · intro hmem
        rcases gmlFix_go_mem gen rest seen (k + 1) _ hmem with ⟨h1, _⟩ | ⟨m, hm, he⟩
        · exact hG k (le_refl k) (List.mem_cons_of_mem _ h1)
        · have : k = m := hinj k m (string_append_cancel_left he)
          omega
      · exact ih seen (k + 1)
          (fun m hm hmem => hG m (by omega) (List.mem_cons_of_mem _ hmem))
    · rw [gmlFixIds.go, if_neg hv, List.nodup_cons]
      constructor
      · intro hmem
        rcases gmlFix_go_mem gen rest (v :: seen) k _ hmem with ⟨_, h2⟩ | ⟨m, hm, he⟩
        · exact h2 (List.mem_cons_self _ _)
        · exact hG m hm (he ▸ List.mem_cons_self _ _)
      · exact ih (v :: seen) k
          (fun m hm hmem => hG m hm (List.mem_cons_of_mem _ hmem))

theorem gmlFix_go_getD (gen : Nat → String) :
    ∀ (l seen : List String) (k i : Nat), i < l.length →
      ((l.getD i "" ∉ seen ∧ l.getD i "" ∉ l.take i →
          (gmlFixIds.go gen l seen k).getD i "" = l.getD i "") ∧
       (l.getD i "" ∈ seen ∨ l.getD i "" ∈ l.take i →
          ∃ m, (gmlFixIds.go gen l seen k).getD i "" = "GML_" ++ gen m)) := by
  intro l
  induction l with
  | nil => intro seen k i hi; exact absurd hi (by simp)
  | cons v rest ih =>
    intro seen k i hi
    cases i with
    | zero =>
      constructor
      · rintro ⟨hns, _⟩
        rw [gmlFixIds.go, if_neg (by simpa using hns)]
        rfl
      · intro h
        have hvs : v ∈ seen := by
          rcases h with h | h
          · simpa using h
          · exact absurd h (by simp)
        rw [gmlFixIds.go, if_pos hvs]
        exact ⟨k, rfl⟩
    | succ i2 =>
      have hi2 : i2 < rest.length := by simpa using hi
      have hgetD : (v :: rest).getD (i2 + 1) "" = rest.getD i2 "" := rfl
      have htake : (v :: rest).take (i2 + 1) = v :: rest.take i2 := rfl
      rw [hgetD, htake]
      by_cases hv : v ∈ seen
      · rw [gmlFixIds.go, if_pos hv]
        have hout : ∀ r, (("GML_" ++ gen k) :: r).getD (i2 + 1) "" =
            r.getD i2 "" := fun r => rfl
        rw [hout]
        constructor
        · rintro ⟨hns, hnt⟩
          exact (ih seen (k + 1) i2 hi2).1
            ⟨hns, fun h => hnt (List.mem_cons_of_mem _ h)⟩
        · intro h
          refine (ih seen (k + 1) i2 hi2).2 ?_
          rcases h with h | h
          · exact Or.inl h
          · rcases List.mem_cons.1 h with rfl | h2
            · exact Or.inl hv
            · exact Or.inr h2
      · rw [gmlFixIds.go, if_neg hv]
        have hout : ∀ r, (v :: r).getD (i2 + 1) "" = r.getD i2 "" :=
          fun r => rfl
        rw [hout]
        constructor
        · rintro ⟨hns, hnt⟩
          refine (ih (v :: seen) k i2 hi2).1 ⟨?_, ?_⟩
          · intro h
            rcases List.mem_cons.1 h with rfl | h2
            · exact hnt (List.mem_cons_self _ _)
            · exact hns h2
          · intro h
            exact hnt (List.mem_cons_of_mem _ h)
        · intro h
          refine (ih (v :: seen) k i2 hi2).2 ?_
          rcases h with h | h
          · exact Or.inl (List.mem_cons_of_mem _ h)
          · rcases List.mem_cons.1 h with he | h2
            · exact Or.inl (he ▸ List.mem_cons_self _ _)
            · exact Or.inr h2

/-- C3: provided the UUID draws are pairwise distinct and no prefixed
draw collides with an input identifier, the deduplicated identifier list
has no duplicate values; every first occurrence keeps its original value
in place, and every occurrence whose value was already seen is replaced
by "GML_" followed by one of the generator's draws. -/
theorem C3_gml_dedup (ids : List String) (gen : Nat → String)
    (hinj : ∀ j k, gen j = gen k → j = k)
    (hfresh : ∀ m, ("GML_" ++ gen m) ∉ ids) :
    (gmlFixIds ids gen).length = ids.length ∧
    (gmlFixIds ids gen).Nodup ∧
    ∀ i, i < ids.length →
      ((ids.getD i "" ∉ ids.take i →
          (gmlFixIds ids gen).getD i "" = ids.getD i "") ∧
       (ids.getD i "" ∈ ids.take i →
          ∃ m, (gmlFixIds ids gen).getD i "" = "GML_" ++ gen m)) := by
  refine ⟨gmlFix_go_length gen ids [] 0,
    gmlFix_go_nodup gen hinj ids [] 0 (fun m _ => hfresh m), ?_⟩
  intro i hi
  have h := gmlFix_go_getD gen ids [] 0 i hi
  exact ⟨fun hnt => h.1 ⟨by simp, hnt⟩,
    fun ht => h.2 (Or.inr ht)⟩

/-- C3 witness: the list ["a", "b", "a"] with the replicate-based UUID
stream; the duplicate "a" is rewritten, the rest keeps its value. -/
theorem C3_witness :
    (gmlFixIds exIds uuidGen).length = exIds.length ∧
    (gmlFixIds exIds uuidGen).Nodup ∧
    ((exIds.getD 0 "" ∉ exIds.take 0 →
        (gmlFixIds exIds uuidGen).getD 0 "" = exIds.getD 0 "") ∧
     (exIds.getD 2 "" ∈ exIds.take 2 →
        ∃ m, (gmlFixIds exIds uuidGen).getD 2 "" = "GML_" ++ uuidGen m)) := by
  have hinj : ∀ j k, uuidGen j = uuidGen k → j = k := by
    intro j k h
    have := congrArg (fun s => s.data.length) h
    simpa [uuidGen] using this
  have hfresh : ∀ m, ("GML_" ++ uuidGen m) ∉ exIds := by
    intro m hmem
    have hlen : ("GML_" ++ uuidGen m).data.length = 4 + m := by
      rw [String.data_append]
      simp [uuidGen]
      omega
    have hcases : "GML_" ++ uuidGen m = "a" ∨ "GML_" ++ uuidGen m = "b" ∨
        "GML_" ++ uuidGen m = "a" := by
      simpa [exIds] using hmem
    have : ("GML_" ++ uuidGen m).data.length = 1 := by
      rcases hcases with he | he | he
      all_goals rw [he]
      all_goals rfl
    omega
  have h := C3_gml_dedup exIds uuidGen hinj hfresh
  exact ⟨h.1, h.2.1, (h.2.2 0 (by decide)).1, (h.2.2 2 (by decide)).2⟩

end SPINE
